import Mathlib

/-!
Verification of the scale-bar / unit-conversion core of the
`scm_electron_microscopes` package, shallowly embedded in Lean 4.

Python floats are modelled by `ℚ` (every literal appearing in the claims is
a decimal fraction, and the conversions at stake are exact powers of ten, so
the rational model is exact where the claims talk about exact values and
strictly stronger where they allow floating-point tolerance).  Fallible code
(`raise ValueError`) is modelled with `Except String`.
-/

namespace SCM

/-! ## Unit System (`utility._convert_length`, utility.py lines 395–451) -/

/-- The canonical unit table of `_convert_length` (utility.py lines 432–440):
`'fm', '', '', 'pm', '', 'Å', 'nm', '', '', 'µm', '', '', 'mm', 'cm', 'dm',
'm', 'dam', 'hm', 'km'` — one slot per factor of ten, with empty-string
placeholders so that every step in the list is exactly ×10. -/
def units : List String :=
  ["fm", "", "",
   "pm", "", "Å",
   "nm", "", "",
   "µm", "", "",
   "mm", "cm", "dm",
   "m", "dam", "hm",
   "km"]

/-- Alias normalization performed by `_convert_length` (utility.py lines
420–428): the ASCII aliases `um` and `A` are rewritten to `µm` and `Å`;
every other string is left alone. -/
def normalizeUnit (u : String) : String :=
  if u = "um" then "µm"
  else if u = "A" then "Å"
  else u

/-- Shallow embedding of `utility._convert_length(value, unit, convert)`
(utility.py lines 395–451).  `convert = none` models the Python default
`convert=None`, which is replaced by `'µm'`.  Aliases are normalized on both
arguments, then, only when the two normalized units differ, the units are
validated against the table and the value is multiplied by
`10^(index(unit) - index(convert))`. -/
def convert_length (value : ℚ) (unit : String) (convert : Option String) :
    Except String (ℚ × String) :=
  let convert := convert.getD "µm"
  let convert := normalizeUnit convert
  let unit := normalizeUnit unit
  if convert ≠ unit then
    if unit = "" ∨ convert = "" then
      .error "unit and convert cannot be empty strings"
    else if unit ∉ units then
      .error ("\"" ++ unit ++ "\" is not a valid unit")
    else if convert ∉ units then
      .error ("\"" ++ convert ++ "\" is not a valid unit")
    else
      .ok (value * (10 : ℚ) ^ ((units.indexOf unit : ℤ) - (units.indexOf convert : ℤ)),
           convert)
  else
    .ok (value, convert)

/-- Units that appear in the canonical table are untouched by alias
normalization (`um` and `A` are not table entries). -/
theorem normalizeUnit_of_mem : ∀ u ∈ units, normalizeUnit u = u := by decide

/-- Helper: on recognized (normalized, non-placeholder) units the conversion
succeeds and multiplies by `10^(index(unit) - index(convert))`.  This also
covers the case of equal units, where the source skips the table lookup and
returns the value unchanged — which agrees with the formula since the
exponent is then zero. -/
theorem convert_length_formula (v : ℚ) (u1 u2 : String)
    (h1 : normalizeUnit u1 ∈ units) (h1e : normalizeUnit u1 ≠ "")
    (h2 : normalizeUnit u2 ∈ units) (h2e : normalizeUnit u2 ≠ "") :
    convert_length v u1 (some u2) =
      .ok (v * (10 : ℚ) ^ ((units.indexOf (normalizeUnit u1) : ℤ)
        - (units.indexOf (normalizeUnit u2) : ℤ)), normalizeUnit u2) := by
  unfold convert_length
  simp only [Option.getD_some]
  by_cases h : normalizeUnit u2 = normalizeUnit u1
  · rw [h]
    simp
  · simp [h, h1, h2, h1e, h2e]

/-- C1: for every value `v` and recognized units `u1`, `u2` (after `um`/`A`
alias normalization), `_convert_length(v, u1, u2)` returns
`v * 10^(i1 - i2)` with `i1`, `i2` the ordinal positions of the units in the
canonical table, together with the normalized target unit. -/
theorem convert_length_power_of_ten (v : ℚ) (u1 u2 : String)
    (h1 : normalizeUnit u1 ∈ units) (h1e : normalizeUnit u1 ≠ "")
    (h2 : normalizeUnit u2 ∈ units) (h2e : normalizeUnit u2 ≠ "") :
    convert_length v u1 (some u2) =
      .ok (v * (10 : ℚ) ^ ((units.indexOf (normalizeUnit u1) : ℤ)
        - (units.indexOf (normalizeUnit u2) : ℤ)), normalizeUnit u2) :=
  convert_length_formula v u1 u2 h1 h1e h2 h2e

/-- Witness for C1, which is also the claim's concrete scenario:
`_convert_length(1.7, 'nm', 'µm')` returns `0.0017 µm`. -/
theorem convert_length_power_of_ten_witness :
    convert_length (17/10) "nm" (some "µm") = .ok (17/10000, "µm") := by
  have h := convert_length_power_of_ten (17/10) "nm" "µm"
    (by decide) (by decide) (by decide) (by decide)
  rw [h, show normalizeUnit "nm" = "nm" from rfl, show normalizeUnit "µm" = "µm" from rfl,
     show ((units.indexOf "nm" : ℤ) - (units.indexOf "µm" : ℤ)) = -3 by decide]
  simp only [Except.ok.injEq, Prod.mk.injEq]
  norm_num

/-- C2 counterexample: `_convert_length(500, 'pm', 'Å')` returns `5 Å`, not
`5000` — in the canonical table `pm` sits two slots below `Å`, so pm→Å is a
×100 conversion (two ×10 table steps), and converting 500 pm *to* the larger
unit divides by 100. -/
theorem convert_length_pm_to_angstrom_not_5000 :
    convert_length 500 "pm" (some "Å") = .ok (5, "Å") ∧ (5 : ℚ) ≠ 5000 := by
  constructor
  · have h := convert_length_formula 500 "pm" "Å"
      (by decide) (by decide) (by decide) (by decide)
    rw [h, show normalizeUnit "pm" = "pm" from rfl, show normalizeUnit "Å" = "Å" from rfl,
       show ((units.indexOf "pm" : ℤ) - (units.indexOf "Å" : ℤ)) = -2 by decide]
    simp only [Except.ok.injEq, Prod.mk.injEq]
    norm_num
  · norm_num

/-- C2 (amended): converting 500 from 'pm' to 'Å' returns the value `5`
together with the unit 'Å' (the pm→Å conversion is encoded as two ×10 table
steps, i.e. ×100, matching 1 Å = 100 pm). -/
theorem convert_length_pm_to_angstrom :
    convert_length 500 "pm" (some "Å") = .ok (5, "Å") := by
  have h := convert_length_formula 500 "pm" "Å"
    (by decide) (by decide) (by decide) (by decide)
  rw [h, show normalizeUnit "pm" = "pm" from rfl, show normalizeUnit "Å" = "Å" from rfl,
     show ((units.indexOf "pm" : ℤ) - (units.indexOf "Å" : ℤ)) = -2 by decide]
  simp only [Except.ok.injEq, Prod.mk.injEq]
  norm_num

/-- C3: round-trip identity.  For every value and every pair of
(non-placeholder) units of the canonical table, converting from `u1` to `u2`
succeeds with some value `v1`, and converting `v1` back from `u2` to `u1`
returns the original value exactly (hence a fortiori within floating-point
tolerance). -/
theorem convert_length_roundtrip (v : ℚ) (u1 u2 : String)
    (h1 : u1 ∈ units) (h2 : u2 ∈ units) (h1e : u1 ≠ "") (h2e : u2 ≠ "") :
    ∃ v1, convert_length v u1 (some u2) = .ok (v1, u2) ∧
          convert_length v1 u2 (some u1) = .ok (v, u1) := by
  have n1 : normalizeUnit u1 = u1 := normalizeUnit_of_mem u1 h1
  have n2 : normalizeUnit u2 = u2 := normalizeUnit_of_mem u2 h2
  refine ⟨v * (10 : ℚ) ^ ((units.indexOf u1 : ℤ) - (units.indexOf u2 : ℤ)), ?_, ?_⟩
  · have h := convert_length_formula v u1 u2
      (by rw [n1]; exact h1) (by rw [n1]; exact h1e)
      (by rw [n2]; exact h2) (by rw [n2]; exact h2e)
    rwa [n1, n2] at h
  · have h := convert_length_formula
      (v * (10 : ℚ) ^ ((units.indexOf u1 : ℤ) - (units.indexOf u2 : ℤ))) u2 u1
      (by rw [n2]; exact h2) (by rw [n2]; exact h2e)
      (by rw [n1]; exact h1) (by rw [n1]; exact h1e)
    rw [n1, n2] at h
    rw [h, mul_assoc, ← zpow_add₀ (by norm_num : (10 : ℚ) ≠ 0)]
    norm_num

/-- Witness for C3 at `v = 3`, `u1 = nm`, `u2 = µm`. -/
theorem convert_length_roundtrip_witness :
    ∃ v1, convert_length 3 "nm" (some "µm") = .ok (v1, "µm") ∧
          convert_length v1 "µm" (some "nm") = .ok (3, "nm") :=
  convert_length_roundtrip 3 "nm" "µm" (by decide) (by decide) (by decide) (by decide)

/-- C9 counterexample: two *equal* unrecognized unit strings do not raise:
the source only validates units inside the `if convert != unit` branch, so
`_convert_length(1, 'xx', 'xx')` returns `(1, 'xx')` even though `'xx'` is
not in the unit table. -/
theorem convert_length_equal_unknown_units_ok :
    convert_length 1 "xx" (some "xx") = .ok (1, "xx") ∧ "xx" ∉ units := by
  exact ⟨rfl, by decide⟩

/-- C9 (amended): whenever the two normalized units *differ* and either of
them is not a member of the unit table, `_convert_length` fails with a
`ValueError`; equal unit strings (recognized or not) bypass validation and
return the value unchanged. -/
theorem convert_length_invalid_unit_error (v : ℚ) (u1 u2 : String)
    (hne : normalizeUnit u1 ≠ normalizeUnit u2)
    (h : normalizeUnit u1 ∉ units ∨ normalizeUnit u2 ∉ units) :
    ∃ e, convert_length v u1 (some u2) = .error e := by
  unfold convert_length
  simp only [Option.getD_some]
  rw [if_pos (fun hc => hne hc.symm)]
  by_cases hemp : normalizeUnit u1 = "" ∨ normalizeUnit u2 = ""
  · rw [if_pos hemp]
    exact ⟨_, rfl⟩
  · rw [if_neg hemp]
    by_cases hm1 : normalizeUnit u1 ∈ units
    · have hm2 : normalizeUnit u2 ∉ units := h.resolve_left (fun hh => hh hm1)
      rw [if_neg (fun hh => hh hm1), if_pos hm2]
      exact ⟨_, rfl⟩
    · rw [if_pos hm1]
      exact ⟨_, rfl⟩

/-- Witness for C9 (amended) at `v = 1`, `u1 = 'xx'`, `u2 = 'nm'`. -/
theorem convert_length_invalid_unit_error_witness :
    ∃ e, convert_length 1 "xx" (some "nm") = .error e :=
  convert_length_invalid_unit_error 1 "xx" "nm" (by decide) (Or.inl (by decide))

/-! ## Scale-bar sizing (`utility._export_with_scalebar`, utility.py lines
211–222) -/

/-- Python's `abs` on (here: rational) numbers. -/
def absQ (q : ℚ) : ℚ := if q < 0 then -q else q

theorem absQ_eq_abs (q : ℚ) : absQ q = |q| := by
  by_cases h : q < 0
  · simp [absQ, h, abs_of_neg h]
  · simp [absQ, h, abs_of_nonneg (le_of_not_lt h)]

/-- The fixed ascending list of "nice" scale-bar values `lst`
(utility.py lines 214–218). -/
def niceList : List ℚ :=
  [0.01, 0.02, 0.025, 0.03, 0.04, 0.05, 0.1, 0.2, 0.25, 0.3, 0.4, 0.5,
   1, 2, 2.5, 3, 4, 5, 10, 20, 25, 30, 40, 50, 100, 200, 250, 300,
   400, 500, 1000, 2000, 2500, 3000, 4000, 5000, 6000, 8000, 10000]

/-- The selection performed by
`lst[min(range(len(lst)), key=lambda i: abs(lst[i]-barsize))]`
(utility.py line 219): walk the list keeping the current best value,
replacing it only on a strictly smaller absolute difference — exactly how
Python's `min` keeps the *first* minimizer. -/
def minimizeAbs (t : ℚ) : ℚ → List ℚ → ℚ
  | best, [] => best
  | best, x :: xs =>
      if absQ (x - t) < absQ (best - t) then minimizeAbs t x xs
      else minimizeAbs t best xs

/-- Snap a target value to the nearest entry of the nice-value list.
(Python's `min` would raise on an empty sequence; `niceList` is non-empty,
so the `headD` default is never used.) -/
def snapNice (t : ℚ) : ℚ := minimizeAbs t (niceList.headD t) niceList.tail

/-- The automatic bar size of `_export_with_scalebar` when `barsize is None`
(utility.py lines 211–219): the target `scale*0.12*width*pixelsize`, snapped
to the nearest nice value. -/
def autoBarsize (scale width pixelsize : ℚ) : ℚ :=
  snapNice (scale * 0.12 * width * pixelsize)

/-- The scale-bar length on the image, `barsize_px = barsize/pixelsize`
(utility.py line 222). -/
def barsize_px (barsize pixelsize : ℚ) : ℚ := barsize / pixelsize

theorem minimizeAbs_mem (t : ℚ) (l : List ℚ) :
    ∀ best, minimizeAbs t best l ∈ best :: l := by
  induction l with
  | nil => intro best; simp [minimizeAbs]
  | cons x xs ih =>
    intro best
    rw [minimizeAbs]
    by_cases h : absQ (x - t) < absQ (best - t)
    · rw [if_pos h]
      have := ih x
      simp only [List.mem_cons] at this ⊢
      tauto
    · rw [if_neg h]
      have := ih best
      simp only [List.mem_cons] at this ⊢
      tauto

theorem minimizeAbs_min (t : ℚ) (l : List ℚ) :
    ∀ best, ∀ x ∈ best :: l,
      absQ (minimizeAbs t best l - t) ≤ absQ (x - t) := by
  induction l with
  | nil =>
    intro best x hx
    rcases List.mem_cons.mp hx with rfl | hx'
    · simp [minimizeAbs]
    · simp at hx'
  | cons y ys ih =>
    intro best x hx
    rw [minimizeAbs]
    by_cases h : absQ (y - t) < absQ (best - t)
    · rw [if_pos h]
      rcases List.mem_cons.mp hx with heq | hx'
      · rw [heq]
        exact le_trans (ih y y (List.mem_cons_self _ _)) (le_of_lt h)
      · exact ih y x hx'
    · rw [if_neg h]
      rcases List.mem_cons.mp hx with heq | hx'
      · rw [heq]
        exact ih best best (List.mem_cons_self _ _)
      · rcases List.mem_cons.mp hx' with heq' | hx''
        · rw [heq']
          exact le_trans (ih best best (List.mem_cons_self _ _)) (not_lt.mp h)
        · exact ih best x (List.mem_cons_of_mem _ hx'')

/-- Helper: the snapped value is a nice value, no nice value is strictly
closer to the target, and snapping a nice value is the identity. -/
theorem snapNice_spec (t : ℚ) :
    snapNice t ∈ niceList ∧
    (∀ x ∈ niceList, ¬ (|x - t| < |snapNice t - t|)) ∧
    (t ∈ niceList → snapNice t = t) := by
  have hcons : niceList.headD t :: niceList.tail = niceList := rfl
  have hmem := minimizeAbs_mem t niceList.tail (niceList.headD t)
  rw [hcons] at hmem
  have hmin : ∀ x ∈ niceList, absQ (snapNice t - t) ≤ absQ (x - t) := by
    intro x hx
    exact minimizeAbs_min t niceList.tail (niceList.headD t) x (by rw [hcons]; exact hx)
  refine ⟨hmem, ?_, ?_⟩
  · intro x hx
    rw [not_lt, ← absQ_eq_abs, ← absQ_eq_abs]
    exact hmin x hx
  · intro ht
    have h0 := hmin t ht
    rw [show absQ (t - t) = 0 by simp [absQ]] at h0
    have hz : absQ (snapNice t - t) = 0 := by
      refine le_antisymm h0 ?_
      rw [absQ_eq_abs]
      exact abs_nonneg _
    rw [absQ_eq_abs] at hz
    have := sub_eq_zero.mp (abs_eq_zero.mp hz)
    linarith

/-- C4: with no explicit bar size, the sizing step returns an element of the
fixed nice-value list such that no other entry is strictly closer to the
computed target `scale*0.12*width*pixelsize`; and snapping a value that is
itself in the list returns it unchanged. -/
theorem autoBarsize_nearest_nice (scale width pixelsize : ℚ) :
    autoBarsize scale width pixelsize ∈ niceList ∧
    (∀ x ∈ niceList,
      ¬ (|x - scale * 0.12 * width * pixelsize| <
         |autoBarsize scale width pixelsize - scale * 0.12 * width * pixelsize|)) ∧
    (∀ t ∈ niceList, snapNice t = t) := by
  refine ⟨(snapNice_spec _).1, (snapNice_spec _).2.1, ?_⟩
  intro t ht
  exact (snapNice_spec t).2.2 ht

/-- Witness for C4: the automatic bar size for a 1024 px wide image at
2 units/px is a nice value, and the nice value 300 snaps to itself. -/
theorem autoBarsize_nearest_nice_witness :
    autoBarsize 1 1024 2 ∈ niceList ∧ snapNice 300 = 300 :=
  ⟨(autoBarsize_nearest_nice 1 1024 2).1,
   (autoBarsize_nearest_nice 1 1024 2).2.2 300 (by norm_num [niceList])⟩

set_option maxHeartbeats 1000000 in
/-- Helper: concrete evaluation of the automatic bar size for a
1024-pixel-wide image with pixel size 2 and scale 1. -/
theorem autoBarsize_1024_eval : autoBarsize 1 1024 2 = 250 := by
  norm_num [autoBarsize, snapNice, minimizeAbs, absQ, niceList]

/-- C5 counterexample: for a 1024-pixel-wide image with pixel size 2 and
scale 1 the code computes the target as `1*0.12*1024*2 = 245.76` (the
fraction in the source is 0.12, despite the adjacent comment saying 15%),
snaps it to `250` — not `300` — and obtains `125` px — not `150` px. -/
theorem autoBarsize_1024_not_300 :
    autoBarsize 1 1024 2 = 250 ∧ (250 : ℚ) ≠ 300 ∧
    barsize_px (autoBarsize 1 1024 2) 2 = 125 ∧ (125 : ℚ) ≠ 150 := by
  refine ⟨autoBarsize_1024_eval, by norm_num, ?_, by norm_num⟩
  rw [autoBarsize_1024_eval]
  norm_num [barsize_px]

/-- C5 (amended): for a 1024-pixel-wide image with pixel size 2, scale 1 and
no explicit bar size, the target length is `1*0.12*1024*2 = 245.76`, which
snaps to the nearest nice value `250`, giving a bar length of `125` pixels
on the image. -/
theorem autoBarsize_1024 :
    (1 : ℚ) * 0.12 * 1024 * 2 = 245.76 ∧
    autoBarsize 1 1024 2 = 250 ∧
    barsize_px 250 2 = 125 := by
  exact ⟨by norm_num, autoBarsize_1024_eval, by norm_num [barsize_px]⟩

/-! ## Export wrappers and the overwrite guard
(`helios.export_with_scalebar`, sem.py lines 268–291;
`tia.export_with_scalebar`, tem.py lines 551–571) -/

/-- `s.rpartition(sep)[0]` in Python: everything before the *last* occurrence
of `sep`, or the empty string when `sep` does not occur. -/
def rpartitionHead (s : String) (sep : Char) : String :=
  let r := s.data.reverse
  if sep ∈ r then String.mk ((r.drop (r.indexOf sep + 1)).reverse) else ""

/-- The file-write-relevant options of `_export_with_scalebar`: every other
option (crop, intensity range, fonts, …) only affects in-memory rendering,
never which files are written. -/
structure ExportOptions where
  store_settings : Bool
  save : Bool

/-- A file written to disk by the rendering pipeline. -/
inductive FileWrite where
  | settings (path : String)
  | image (path : String)
deriving DecidableEq

/-- The file writes `_export_with_scalebar` performs, in order: the settings
sidecar `<stem>_settings.txt` first when `store_settings` (utility.py lines
87–105), the exported raster last when `save` (utility.py lines 389–391). -/
def exportWrites (filename : String) (opts : ExportOptions) : List FileWrite :=
  (if opts.store_settings then
    [FileWrite.settings (rpartitionHead filename '.' ++ "_settings.txt")]
   else []) ++
  (if opts.save then [FileWrite.image filename] else [])

/-- `helios.export_with_scalebar` (sem.py lines 274–291): a non-string
`filename` (modelled as `none`) is replaced by the default
`<stem>_scalebar.png`; then, *before* `_export_with_scalebar` is entered,
the guard raises `ValueError` when the export filename equals the source
filename.  Returns the writes performed and the outcome. -/
def helios_export_with_scalebar (self_filename : String) (filename : Option String)
    (opts : ExportOptions) : List FileWrite × Except String Unit :=
  let fname := filename.getD (rpartitionHead self_filename '.' ++ "_scalebar.png")
  if fname = self_filename then
    ([], .error ("overwriting original SEM file not recommended, " ++
                 "use a different filename for exporting."))
  else
    (exportWrites fname opts, .ok ())

/-- `tia.export_with_scalebar` (tem.py lines 557–571), identical guard
structure to the helios one up to the message text. -/
def tia_export_with_scalebar (self_filename : String) (filename : Option String)
    (opts : ExportOptions) : List FileWrite × Except String Unit :=
  let fname := filename.getD (rpartitionHead self_filename '.' ++ "_scalebar.png")
  if fname = self_filename then
    ([], .error ("overwriting original TEM file not reccomended, " ++
                 "use a different filename for exporting."))
  else
    (exportWrites fname opts, .ok ())

/-- C6: calling either export wrapper with `filename` equal to the
instance's source filename fails with the `ValueError`, with no file written
(neither raster nor settings sidecar), for every combination of the
write-relevant options — the guard runs before the rendering pipeline. -/
theorem export_overwrite_guard (self_filename : String) (opts : ExportOptions) :
    (helios_export_with_scalebar self_filename (some self_filename) opts).1 = [] ∧
    (∃ e, (helios_export_with_scalebar self_filename (some self_filename) opts).2
       = .error e) ∧
    (tia_export_with_scalebar self_filename (some self_filename) opts).1 = [] ∧
    (∃ e, (tia_export_with_scalebar self_filename (some self_filename) opts).2
       = .error e) := by
  refine ⟨?_, ?_, ?_, ?_⟩
  · simp [helios_export_with_scalebar]
  · exact ⟨"overwriting original SEM file not recommended, " ++
           "use a different filename for exporting.",
      by simp [helios_export_with_scalebar]⟩
  · simp [tia_export_with_scalebar]
  · exact ⟨"overwriting original TEM file not reccomended, " ++
           "use a different filename for exporting.",
      by simp [tia_export_with_scalebar]⟩

/-! ## TagSoup metadata view (`tia.get_metadata(asdict=True)`, tem.py lines
85–96) -/

/-- One metadata entry, `{"value": value, "unit": unit}`. -/
structure MetaEntry where
  value : String
  unitStr : String
deriving DecidableEq

/-- Python-dict assignment `d[k] = v` on an insertion-ordered association
list: an existing key keeps its position and gets the new value, a new key
is appended at the end. -/
def dictSet : List (String × MetaEntry) → String → MetaEntry →
    List (String × MetaEntry)
  | [], k, v => [(k, v)]
  | p :: ps, k, v => if p.1 = k then (k, v) :: ps else p :: dictSet ps k v

/-- The dictionary-building loop of `tia.get_metadata(asdict=True)` (tem.py
lines 90–96): for each extracted `<Data>` block — modelled at the level of
its `(label, unit, value)` triple — execute
`metadatadict[label] = {"value": value, "unit": unit}`. -/
def tia_get_metadata_dict (blocks : List (String × String × String)) :
    List (String × MetaEntry) :=
  blocks.foldl (fun m b => dictSet m b.1 ⟨b.2.2, b.2.1⟩) []

/-- Ordered-dict lookup: the value at the first entry with the given key. -/
def lookupD (k : String) : List (String × MetaEntry) → Option MetaEntry
  | [] => none
  | p :: ps => if p.1 = k then some p.2 else lookupD k ps

/-- First block carrying a given label. -/
def firstWithLabel (l : String) : List (String × String × String) →
    Option (String × String × String)
  | [] => none
  | b :: bs => if b.1 = l then some b else firstWithLabel l bs

theorem firstWithLabel_append (l : String) (xs ys : List (String × String × String)) :
    firstWithLabel l (xs ++ ys) =
      match firstWithLabel l xs with
      | some b => some b
      | none => firstWithLabel l ys := by
  induction xs with
  | nil => simp [firstWithLabel]
  | cons x xs ih =>
    rw [List.cons_append, firstWithLabel, firstWithLabel]
    by_cases h : x.1 = l
    · rw [if_pos h, if_pos h]
    · rw [if_neg h, if_neg h, ih]

theorem lookupD_dictSet (k : String) (v : MetaEntry) (l : String) :
    ∀ m, lookupD l (dictSet m k v) = if k = l then some v else lookupD l m := by
  intro m
  induction m with
  | nil =>
    rw [dictSet, lookupD, lookupD]
    by_cases hl : k = l
    · rw [if_pos (show (k, v).1 = l from hl), if_pos hl]
    · rw [if_neg (show ¬ (k, v).1 = l from hl), if_neg hl, lookupD]
  | cons p ps ih =>
    rw [dictSet]
    by_cases hp : p.1 = k
    · rw [if_pos hp, lookupD, lookupD]
      by_cases hl : k = l
      · rw [if_pos (show (k, v).1 = l from hl), if_pos hl]
      · rw [if_neg (show ¬ (k, v).1 = l from hl), if_neg hl,
            if_neg (fun hpl => hl (hp ▸ hpl))]
    · rw [if_neg hp, lookupD, lookupD]
      by_cases hpl : p.1 = l
      · have hkl : ¬ k = l := fun h => hp ((h.trans hpl.symm) ▸ rfl)
        rw [if_pos hpl, if_pos hpl, if_neg hkl]
      · rw [if_neg hpl, if_neg hpl, ih]

theorem mem_keys_dictSet (k : String) (v : MetaEntry) (a : String) :
    ∀ m, a ∈ (dictSet m k v).map Prod.fst ↔ a = k ∨ a ∈ m.map Prod.fst := by
  intro m
  induction m with
  | nil => simp [dictSet]
  | cons p ps ih =>
    rw [dictSet]
    by_cases hp : p.1 = k
    · rw [if_pos hp]
      simp only [List.map_cons, List.mem_cons, hp]
      tauto
    · rw [if_neg hp]
      simp only [List.map_cons, List.mem_cons, ih]
      tauto

theorem keys_dictSet_nodup (k : String) (v : MetaEntry) :
    ∀ m, (m.map Prod.fst).Nodup → ((dictSet m k v).map Prod.fst).Nodup := by
  intro m
  induction m with
  | nil => simp [dictSet]
  | cons p ps ih =>
    intro hnd
    rw [List.map_cons, List.nodup_cons] at hnd
    rw [dictSet]
    by_cases hp : p.1 = k
    · rw [if_pos hp]
      rw [List.map_cons, List.nodup_cons]
      exact ⟨hp ▸ hnd.1, hnd.2⟩
    · rw [if_neg hp]
      rw [List.map_cons, List.nodup_cons]
      refine ⟨?_, ih hnd.2⟩
      rw [mem_keys_dictSet]
      rintro (h | h)
      · exact hp (h ▸ rfl)
      · exact hnd.1 h

/-- One step of the metadata loop. -/
def metaStep (m : List (String × MetaEntry)) (b : String × String × String) :
    List (String × MetaEntry) :=
  dictSet m b.1 ⟨b.2.2, b.2.1⟩

theorem lookupD_build (l : String) :
    ∀ (bs : List (String × String × String)) (m : List (String × MetaEntry)),
      lookupD l (bs.foldl metaStep m) =
        match firstWithLabel l bs.reverse with
        | some b => some ⟨b.2.2, b.2.1⟩
        | none => lookupD l m := by
  intro bs
  induction bs with
  | nil => intro m; simp [firstWithLabel]
  | cons b bs ih =>
    intro m
    rw [List.foldl_cons, ih, List.reverse_cons, firstWithLabel_append]
    cases hfw : firstWithLabel l bs.reverse with
    | some x => rfl
    | none =>
      simp only []
      rw [show firstWithLabel l [b] = if b.1 = l then some b else none from rfl]
      by_cases hb : b.1 = l
      · rw [if_pos hb]
        show lookupD l (dictSet m b.1 _) = some _
        rw [lookupD_dictSet, if_pos hb]
      · rw [if_neg hb]
        show lookupD l (dictSet m b.1 _) = lookupD l m
        rw [lookupD_dictSet, if_neg hb]

theorem keys_build_nodup :
    ∀ (bs : List (String × String × String)) (m : List (String × MetaEntry)),
      (m.map Prod.fst).Nodup → ((bs.foldl metaStep m).map Prod.fst).Nodup := by
  intro bs
  induction bs with
  | nil => intro m h; exact h
  | cons b bs ih =>
    intro m h
    rw [List.foldl_cons]
    exact ih _ (keys_dictSet_nodup _ _ _ h)

/-- C7 counterexample: parsing two `<Data>` blocks with the same label `X`
yields a single entry holding the *second* value — the earlier entry is
silently overwritten and no suffixed key (`X01` or similar) appears. -/
theorem metadata_duplicate_label_overwritten :
    tia_get_metadata_dict [("X", "nm", "1"), ("X", "nm", "2")]
      = [("X", ⟨"2", "nm"⟩)] ∧
    (tia_get_metadata_dict [("X", "nm", "1"), ("X", "nm", "2")]).length = 1 := by
  exact ⟨rfl, rfl⟩

/-- C7 (amended): in the metadata view built by `tia.get_metadata(asdict=True)`
labels are unique, but a later entry whose label collides with an earlier one
silently overwrites the earlier entry's value (the label keeps its original
position and maps to the value of its *last* occurrence); no numeric suffix
is ever appended. -/
theorem metadata_labels_unique_last_wins (blocks : List (String × String × String)) :
    ((tia_get_metadata_dict blocks).map Prod.fst).Nodup ∧
    ∀ l, lookupD l (tia_get_metadata_dict blocks) =
      (firstWithLabel l blocks.reverse).map (fun b => (⟨b.2.2, b.2.1⟩ : MetaEntry)) := by
  constructor
  · exact keys_build_nodup blocks [] (by simp)
  · intro l
    rw [show tia_get_metadata_dict blocks = blocks.foldl metaStep [] from rfl,
        lookupD_build]
    cases firstWithLabel l blocks.reverse with
    | some b => rfl
    | none => rfl

/-! ## Legacy scale-bar length measurement
(`tia.get_pixelsize_legacy`, tem.py lines 310–315;
old-module `tecnai.get_pixelsize`, electron_microscopes.py line 171) -/

/-- tem.py lines 310–315: with `xs` the x-coordinates `corners[0][:,0,0]` of
the leftmost contour (after the sort on line 308), the code sets
`usecorners = [0,10]` when `use_legacy_measurement` else `[0,9]` and takes
`barlength = corners[0][usecorners[1],0,0] - corners[0][usecorners[0],0,0]`. -/
def barlength_legacy (use_legacy_measurement : Bool) (xs : List ℤ) : ℤ :=
  let usecorners : Nat × Nat := if use_legacy_measurement then (0, 10) else (0, 9)
  xs.getD usecorners.2 0 - xs.getD usecorners.1 0

/-- electron_microscopes.py line 171 (old `tecnai.get_pixelsize`, no flag):
`barlength = corners[0][7,0,0] - corners[0][1,0,0]`. -/
def barlength_old (xs : List ℤ) : ℤ :=
  xs.getD 7 0 - xs.getD 1 0

/-- Modelled from the claim's words, for comparison with the source: the
span taken from base index 1 to index 10 or 9 depending on the flag. -/
def barlength_claimed (use_legacy_measurement : Bool) (xs : List ℤ) : ℤ :=
  let usecorners : Nat × Nat := if use_legacy_measurement then (1, 10) else (1, 9)
  xs.getD usecorners.2 0 - xs.getD usecorners.1 0

/-- C8 counterexample: on the corner x-coordinates `[0,1,…,10]` the code
measures `10` (span 0→10, flag set) and `9` (span 0→9, flag clear), while
the claim's base index 1 would give `9` and `8`, and the 1→7 convention
gives `6`; the code's value matches none of the claim's flag-selected
spans. -/
theorem barlength_base_index_counterexample :
    barlength_legacy true [0,1,2,3,4,5,6,7,8,9,10] = 10 ∧
    barlength_claimed true [0,1,2,3,4,5,6,7,8,9,10] = 9 ∧
    barlength_legacy false [0,1,2,3,4,5,6,7,8,9,10] = 9 ∧
    barlength_claimed false [0,1,2,3,4,5,6,7,8,9,10] = 8 ∧
    barlength_old [0,1,2,3,4,5,6,7,8,9,10] = 6 ∧
    barlength_legacy true [0,1,2,3,4,5,6,7,8,9,10]
      ≠ barlength_claimed true [0,1,2,3,4,5,6,7,8,9,10] ∧
    barlength_legacy false [0,1,2,3,4,5,6,7,8,9,10]
      ≠ barlength_claimed false [0,1,2,3,4,5,6,7,8,9,10] := by
  decide

/-- C8 (amended): `tia.get_pixelsize_legacy` measures the bar as the span
between contour-corner x-coordinates at indices 0 and 10 when
`use_legacy_measurement` is set, and indices 0 and 9 otherwise; the old
module's `tecnai.get_pixelsize` uses indices 1 and 7 unconditionally.  Both
flag conventions remain selectable and they give systematically different
results whenever the two endpoint coordinates differ. -/
theorem barlength_conventions (xs : List ℤ) :
    barlength_legacy true xs = xs.getD 10 0 - xs.getD 0 0 ∧
    barlength_legacy false xs = xs.getD 9 0 - xs.getD 0 0 ∧
    barlength_old xs = xs.getD 7 0 - xs.getD 1 0 ∧
    (xs.getD 10 0 ≠ xs.getD 9 0 →
      barlength_legacy true xs ≠ barlength_legacy false xs) := by
  refine ⟨rfl, rfl, rfl, ?_⟩
  intro h hc
  rw [show barlength_legacy true xs = xs.getD 10 0 - xs.getD 0 0 from rfl,
      show barlength_legacy false xs = xs.getD 9 0 - xs.getD 0 0 from rfl] at hc
  exact h (by omega)

/-- Witness for C8 (amended) on concrete corner coordinates. -/
theorem barlength_conventions_witness :
    barlength_legacy true [0,1,2,3,4,5,6,7,8,9,10]
      ≠ barlength_legacy false [0,1,2,3,4,5,6,7,8,9,10] :=
  (barlength_conventions [0,1,2,3,4,5,6,7,8,9,10]).2.2.2 (by decide)

/-! ## The export pipeline works on a copy of `self.image`
(`helios.export_with_scalebar`, sem.py lines 283–287;
`tia.export_with_scalebar`, tem.py lines 566–567;
intensity rescale: utility.py lines 197–204) -/

/-- A pixel buffer (values in ℚ; the integer-dtype truncation of numpy does
not matter for the aliasing property below). -/
abbrev Image := List (List ℚ)

/-- The per-pixel effect of the in-place intensity rescale (utility.py lines
198–204): clip below `imin`, shift down by `imin`, then map values below
`imax-imin` linearly onto 0–255 and saturate the rest at 255.  Each numpy
statement assigns back into the same array, so the array passed in ends up
holding these values. -/
def rescalePixel (imin imax p : ℚ) : ℚ :=
  let p1 := if p < imin then imin else p
  let p2 := p1 - imin
  let m := imax - imin
  if p2 < m then p2 * (255 / m) else 255

/-- Contents of the rescaled buffer. -/
def rescaleIntensity (imin imax : ℚ) (im : Image) : Image :=
  im.map (fun row => row.map (rescalePixel imin imax))

/-- The aliasing-relevant part of the export wrappers under Python reference
semantics, with an explicit heap of buffers: `exportim = self.image.copy()`
(sem.py line 285 / tem.py line 567) allocates a fresh buffer holding the
same pixels, and `_export_with_scalebar` then mutates *that* buffer in place
through the intensity rescale.  Returns the heap after the call and the
reference the pipeline worked on. -/
def export_rescales_copy (heap : List Image) (selfImage : Nat) (imin imax : ℚ) :
    List Image × Nat :=
  let copyRef := heap.length
  let heap1 := heap ++ [heap.getD selfImage []]
  let heap2 := heap1.set copyRef (rescaleIntensity imin imax (heap1.getD copyRef []))
  (heap2, copyRef)

/-- C10: after a call to the export wrapper the buffer `self.image` refers
to is unchanged — the pipeline rescaled the freshly allocated copy — even
though the rescale genuinely rewrites its input buffer (witnessed on the
buffer `[[0,10]]` with intensity range 0–10, which becomes `[[0,255]]`). -/
theorem export_preserves_self_image (heap : List Image) (r : Nat) (imin imax : ℚ)
    (h : r < heap.length) :
    ((export_rescales_copy heap r imin imax).1).getD r [] = heap.getD r [] ∧
    rescaleIntensity 0 10 [[0, 10]] ≠ [[0, 10]] := by
  constructor
  · show ((heap ++ [heap.getD r []]).set heap.length _).getD r [] = heap.getD r []
    rw [List.getD_eq_getElem?_getD, List.getD_eq_getElem?_getD,
        List.getElem?_set_ne (Nat.ne_of_gt h), List.getElem?_append, if_pos h]
  · intro hc
    have he : rescaleIntensity 0 10 [[0, 10]] = [[0, 255]] := by
      norm_num [rescaleIntensity, rescalePixel]
    rw [he] at hc
    simp only [List.cons.injEq] at hc
    norm_num at hc

/-- Witness for C10 on a one-buffer heap. -/
theorem export_preserves_self_image_witness :
    ((export_rescales_copy [[[1, 2]]] 0 0 1).1).getD 0 [] = [[1, 2]] ∧
    rescaleIntensity 0 10 [[0, 10]] ≠ [[0, 10]] := by
  have h := export_preserves_self_image [[[1, 2]]] 0 0 1 (by norm_num)
  exact ⟨h.1.trans rfl, h.2⟩

end SCM
